import Mathlib

/-!
# permissionclaimlabel controller: reconcile harness

Shallow embedding of `pkg/reconciler/apis/permissionclaimlabel/permissionclaimlabel_controller.go`.

* Go `error` values are `Option (Err E)`: `none` is `nil`.
* Pointers to `APIBinding` objects are addresses (`Nat`) into an explicit heap, so that the
  aliasing `old := obj` and the fresh object of `obj.DeepCopy()` are visible.
* Calls to collaborators (work queue, lister, reconcile, commit, patch requests) are recorded,
  in order, in a trace of events carried by the state.
* Everything the collaborators may read or change outside the heap of `APIBinding` objects
  (informer caches, the API server, other objects) is an abstract world `W`.
-/

namespace permissionclaimlabel

/-- A Go error that is not nil. `base` is any error produced by a collaborator; `aggregate` is
the `utilerrors.Aggregate` built by `utilerrors.NewAggregate`. -/
inductive Err (E : Type) where
  | base (e : E)
  | aggregate (errs : List (Err E))

/-- The list behind `Aggregate.Errors()`; an error that is no aggregate holds none. -/
def Err.Errors {E : Type} : Err E → List (Err E)
  | .base _ => []
  | .aggregate errs => errs

/-- Modelled from the spec: `utilerrors.NewAggregate` (k8s.io/apimachinery, not among the
sources). Section 4.5: the reconcile error, if any, is returned aggregated with any commit
error; section 7: the errors are combined and the combination is reported as one failure.
So: nil when there is no error to report (an empty slice, or nil entries only, which are
skipped), otherwise an aggregate of the errors in order. -/
def NewAggregate {E : Type} (errlist : List (Option (Err E))) : Option (Err E) :=
  if errlist.length = 0 then none
  else
    let errs := errlist.filterMap id
    if errs.length = 0 then none else some (Err.aggregate errs)

/-- The sections of an `APIBinding` that the controller touches. The section types are declared
outside this file and are parameters. -/
structure APIBinding (M Sp St : Type) where
  ObjectMeta : M
  Spec : Sp
  Status : St
deriving DecidableEq, Repr

/-- `committer.Resource[*APIBindingSpec, *APIBindingStatus]`, with the pointees of `Spec` and
`Status` as read when commit runs. -/
structure Resource (M Sp St : Type) where
  ObjectMeta : M
  Spec : Sp
  Status : St
deriving DecidableEq, Repr

/-- A patch request sent to the API server: one per channel. -/
inductive PatchCall (M Sp St : Type) where
  | spec (oldMeta : M) (oldSpec : Sp) (newMeta : M) (newSpec : Sp)
  | status (oldStatus newStatus : St)
deriving DecidableEq, Repr

/-- Calls to collaborators, in the order they happen. -/
inductive Event (M Sp St : Type) where
  | queueGet (key : String) (shutdown : Bool)
  | queueDone (key : String)
  | queueForget (key : String)
  | queueAddRateLimited (key : String)
  | listerGet (clusterName name : String)
  | reconcile (obj : Nat) (val : APIBinding M Sp St)
  | commit (old new : Resource M Sp St)
  | patch (p : PatchCall M Sp St)
deriving DecidableEq, Repr

/-- Heap of `APIBinding` objects (addresses below `next` are allocated), the rest of the world,
and the calls made so far. -/
structure State (M Sp St W : Type) where
  heap : Nat → APIBinding M Sp St
  next : Nat
  world : W
  trace : List (Event M Sp St)

/-- The collaborators of `process`, as functions. `SplitMetaClusterNamespaceKey` (the key
decoder) and `IsNotFound` are library functions the file imports and are parameters;
`listerGet` is `c.apiBindingsLister.Cluster(clusterName).Get(name)` and returns a pointer;
`reconcile` is the method `c.reconcile`, defined in another file of the package: it receives
the pointee of its argument and returns the pointee as it leaves it, an error and the world
as it leaves it; `commit` is the field `commit`, which also reports the patch requests it
sent. -/
structure controller (M Sp St E W : Type) where
  SplitMetaClusterNamespaceKey : String → Except (Err E) (String × String × String)
  listerGet : W → String → String → Except (Err E) Nat
  IsNotFound : Err E → Bool
  reconcile : W → APIBinding M Sp St → APIBinding M Sp St × Option (Err E) × W
  commit : W → Resource M Sp St → Resource M Sp St →
    Option (Err E) × List (PatchCall M Sp St) × W

variable {M Sp St E W : Type}

/-- Record one call. -/
def State.emit (s : State M Sp St W) (e : Event M Sp St) : State M Sp St W :=
  { s with trace := s.trace ++ [e] }

/-- Store `v` at address `a`. -/
def State.write (s : State M Sp St W) (a : Nat) (v : APIBinding M Sp St) : State M Sp St W :=
  { s with heap := fun b => if b = a then v else s.heap b }

/-- Modelled from the spec: the generated `(*APIBinding).DeepCopy` (sdk/apis, not among the
sources). Section 3: a deep copy of the cached object, that is a newly allocated object with
the same contents. -/
def DeepCopy (obj : Nat) (s : State M Sp St W) : Nat × State M Sp St W :=
  (s.next, { s.write s.next (s.heap obj) with next := s.next + 1 })

/-- The call `c.reconcile(ctx, obj)` with `obj` a pointer: reconcile may change the pointee
and the world. -/
def callReconcile (c : controller M Sp St E W) (obj : Nat) (s : State M Sp St W) :
    Option (Err E) × State M Sp St W :=
  let r := c.reconcile s.world (s.heap obj)
  let s1 := s.emit (Event.reconcile obj (s.heap obj))
  (r.2.1, { s1.write obj r.1 with world := r.2.2 })

/-- The call `c.commit(ctx, oldResource, newResource)`. -/
def callCommit (c : controller M Sp St E W) (oldResource newResource : Resource M Sp St)
    (s : State M Sp St W) : Option (Err E) × State M Sp St W :=
  let r := c.commit s.world oldResource newResource
  let s1 := s.emit (Event.commit oldResource newResource)
  (r.1, { s1 with world := r.2.2, trace := s1.trace ++ r.2.1.map Event.patch })

/-- `&Resource{ObjectMeta: x.ObjectMeta, Spec: &x.Spec, Status: &x.Status}` for an object `x`
with the contents `v`. -/
def resourceOf (v : APIBinding M Sp St) : Resource M Sp St :=
  { ObjectMeta := v.ObjectMeta, Spec := v.Spec, Status := v.Status }

/-- `controller.process`. -/
def process (c : controller M Sp St E W) (key : String) (s : State M Sp St W) :
    Option (Err E) × State M Sp St W :=
  match c.SplitMetaClusterNamespaceKey key with
  | .error _ => (none, s)
  | .ok (clusterName, _, name) =>
    let s := s.emit (Event.listerGet clusterName name)
    match c.listerGet s.world clusterName name with
    | .error err => if c.IsNotFound err then (none, s) else (some err, s)
    | .ok obj =>
      let old := obj
      let (obj, s) := DeepCopy obj s
      let errs : List (Option (Err E)) := []
      let (err, s) := callReconcile c obj s
      let errs := if err.isSome then errs ++ [err] else errs
      let oldResource := resourceOf (s.heap old)
      let newResource := resourceOf (s.heap obj)
      let (err, s) := callCommit c oldResource newResource s
      let errs := if err.isSome then errs ++ [err] else errs
      (NewAggregate errs, s)

/-- `controller.processNextWorkItem`; `g` is what `c.queue.Get()` returns. The deferred
`c.queue.Done(key)` runs last on both return paths. -/
def processNextWorkItem (c : controller M Sp St E W) (g : String × Bool)
    (s : State M Sp St W) : Bool × State M Sp St W :=
  let k := g.1
  let quit := g.2
  let s := s.emit (Event.queueGet k quit)
  if quit then (false, s)
  else
    let key := k
    let (err, s) := process c key s
    if err.isSome then
      let s := s.emit (Event.queueAddRateLimited key)
      let s := s.emit (Event.queueDone key)
      (true, s)
    else
      let s := s.emit (Event.queueForget key)
      let s := s.emit (Event.queueDone key)
      (true, s)

/-- `controller.startWorker`: `for c.processNextWorkItem(ctx) {}`. The list holds the results
the successive calls of `c.queue.Get()` deliver; when it is used up the next `Get` blocks for
ever and the worker does not return (`none`). -/
def startWorker (c : controller M Sp St E W) :
    List (String × Bool) → State M Sp St W → Option (State M Sp St W)
  | [], _ => none
  | g :: rest, s =>
    match processNextWorkItem c g s with
    | (true, s1) => startWorker c rest s1
    | (false, s1) => some s1

/-- The event is a call of reconcile. -/
def Event.isReconcile : Event M Sp St → Bool
  | .reconcile _ _ => true
  | _ => false

/-- The event is a call of commit. -/
def Event.isCommit : Event M Sp St → Bool
  | .commit _ _ => true
  | _ => false

/-- The event is a lister lookup. -/
def Event.isListerGet : Event M Sp St → Bool
  | .listerGet _ _ => true
  | _ => false

/-- The event is a patch request. -/
def Event.isPatch : Event M Sp St → Bool
  | .patch _ => true
  | _ => false

/-- The event is a rate-limited requeue. -/
def Event.isAddRateLimited : Event M Sp St → Bool
  | .queueAddRateLimited _ => true
  | _ => false

/-- The event is an operation on the work queue. -/
def Event.isQueueOp : Event M Sp St → Bool
  | .queueGet _ _ => true
  | .queueDone _ => true
  | .queueForget _ => true
  | .queueAddRateLimited _ => true
  | _ => false

/-- Number of events of a trace that satisfy `p`. -/
def calls (p : Event M Sp St → Bool) (t : List (Event M Sp St)) : Nat :=
  (t.filter p).length

/-- The work-queue operations of a trace, in order. -/
def queueOps (t : List (Event M Sp St)) : List (Event M Sp St) :=
  t.filter Event.isQueueOp

/-- Keys of the `queueDone` events of a trace, in order. -/
def doneKeys (t : List (Event M Sp St)) : List String :=
  t.filterMap fun e => match e with
    | .queueDone k => some k
    | _ => none

/-- Results of the `queueGet` events of a trace, in order. -/
def getResults (t : List (Event M Sp St)) : List (String × Bool) :=
  t.filterMap fun e => match e with
    | .queueGet k q => some (k, q)
    | _ => none

/-- The lister hands out pointers to allocated objects only. -/
def ListerSound (c : controller M Sp St E W) (s : State M Sp St W) : Prop :=
  ∀ cl nm a, c.listerGet s.world cl nm = .ok a → a < s.next

/-! ## Collaborators of this repository that are not in the file -/

/-- An informer index by logical cluster path and name: what the lookup of `path` and `name`
yields. -/
abbrev Indexer (T : Type) := String → String → Option T

/-- Outcome of resolving a reference. -/
inductive Lookup (T : Type) where
  | found (obj : T)
  | NotFound
deriving DecidableEq, Repr

/-- Modelled from the spec: `indexers.ByPathAndNameWithFallback` (package pkg/indexers, not
among the sources). Section 4.2: first probes the tenant-scoped index for `path`; on miss,
probes the global index; returns `NotFound` if absent in both. Section 9: two independent
lookup tables with a defined precedence order. -/
def ByPathAndNameWithFallback {T : Type} (localIndexer globalIndexer : Indexer T)
    (path name : String) : Lookup T :=
  match localIndexer path name with
  | some obj => .found obj
  | none =>
    match globalIndexer path name with
    | some obj => .found obj
    | none => .NotFound

/-- The closure `getAPIExport` built in `NewController`: the APIExport informer index is the
local one, the global APIExport informer index is the fallback. -/
def getAPIExport {T : Type} (apiExportIndexer globalAPIExportIndexer : Indexer T)
    (path name : String) : Lookup T :=
  ByPathAndNameWithFallback apiExportIndexer globalAPIExportIndexer path name

/-- Modelled from the spec: `committer.NewCommitter` (package pkg/reconciler/committer, not
among the sources). Section 4.5: compare `old.metadata/spec` against `new.metadata/spec`; if
unchanged, skip the spec-channel write. Compare `old.status` against `new.status`; if
unchanged, skip the status-channel write. Each channel, if dirty, issues exactly one patch
request scoped to that channel. Section 7: both channels are attempted; if both fail, the
errors are combined. `patcher` is the typed client the committer is built from. -/
def NewCommitter [DecidableEq M] [DecidableEq Sp] [DecidableEq St]
    (patcher : W → PatchCall M Sp St → Option (Err E) × W)
    (w : W) (old new : Resource M Sp St) : Option (Err E) × List (PatchCall M Sp St) × W :=
  let specCall := PatchCall.spec old.ObjectMeta old.Spec new.ObjectMeta new.Spec
  let statusCall := PatchCall.status old.Status new.Status
  let r1 : Option (Err E) × List (PatchCall M Sp St) × W :=
    if old.ObjectMeta = new.ObjectMeta ∧ old.Spec = new.Spec then (none, [], w)
    else ((patcher w specCall).1, [specCall], (patcher w specCall).2)
  let r2 : Option (Err E) × List (PatchCall M Sp St) × W :=
    if old.Status = new.Status then (none, [], r1.2.2)
    else ((patcher r1.2.2 statusCall).1, [statusCall], (patcher r1.2.2 statusCall).2)
  let err : Option (Err E) :=
    match r1.1, r2.1 with
    | none, none => none
    | some e, none => some e
    | none, some e => some e
    | some e1, some e2 => some (Err.aggregate [e1, e2])
  (err, r1.2.1 ++ r2.2.1, r2.2.2)

/-- `NewController`, for the fields `process` uses: `commit` is the committer built on the
APIBinding client; the other collaborators are handed in. -/
def NewController [DecidableEq M] [DecidableEq Sp] [DecidableEq St]
    (splitKey : String → Except (Err E) (String × String × String))
    (listerGet : W → String → String → Except (Err E) Nat)
    (isNotFound : Err E → Bool)
    (reconcile : W → APIBinding M Sp St → APIBinding M Sp St × Option (Err E) × W)
    (patcher : W → PatchCall M Sp St → Option (Err E) × W) : controller M Sp St E W :=
  { SplitMetaClusterNamespaceKey := splitKey
    listerGet := listerGet
    IsNotFound := isNotFound
    reconcile := reconcile
    commit := NewCommitter patcher }

/-! ## A small concrete instance

Sections are numbers, errors are status codes (404 is NotFound), the world counts the patch
requests the server has accepted. -/

/-- A decoder that accepts every token as a cluster-scoped name in cluster `root`. -/
def Sample.splitOk (key : String) : Except (Err Nat) (String × String × String) :=
  .ok ("root", "", key)

/-- A decoder that rejects every token. -/
def Sample.splitBad (_key : String) : Except (Err Nat) (String × String × String) :=
  .error (.base 400)

/-- A lister whose cache holds every name at address 0. -/
def Sample.listerHit (_w : Nat) (_cl _nm : String) : Except (Err Nat) Nat :=
  .ok 0

/-- A lister whose cache is empty. -/
def Sample.listerGone (_w : Nat) (_cl _nm : String) : Except (Err Nat) Nat :=
  .error (.base 404)

/-- A lister that fails with an internal error. -/
def Sample.listerBroken (_w : Nat) (_cl _nm : String) : Except (Err Nat) Nat :=
  .error (.base 500)

/-- NotFound is status code 404. -/
def Sample.isNotFound : Err Nat → Bool
  | .base 404 => true
  | _ => false

/-- A reconcile that raises the status section by one and fails with 503 when the spec
section is odd. -/
def Sample.reconcile (w : Nat) (v : APIBinding Nat Nat Nat) :
    APIBinding Nat Nat Nat × Option (Err Nat) × Nat :=
  ({ v with Status := v.Status + 1 }, if v.Spec % 2 = 1 then some (.base 503) else none, w)

/-- A reconcile that changes nothing. -/
def Sample.reconcileIdle (w : Nat) (v : APIBinding Nat Nat Nat) :
    APIBinding Nat Nat Nat × Option (Err Nat) × Nat :=
  (v, none, w)

/-- A server that accepts every patch. -/
def Sample.patcher (w : Nat) (_p : PatchCall Nat Nat Nat) : Option (Err Nat) × Nat :=
  (none, w + 1)

/-- One cached object at address 0, nothing else allocated, no calls yet. -/
def Sample.state : State Nat Nat Nat Nat :=
  { heap := fun _ => { ObjectMeta := 7, Spec := 1, Status := 0 }
    next := 1
    world := 0
    trace := [] }

/-- Controller whose keys decode and whose objects are found. -/
def Sample.ctl : controller Nat Nat Nat Nat Nat :=
  NewController Sample.splitOk Sample.listerHit Sample.isNotFound Sample.reconcile Sample.patcher

/-- Controller whose reconcile changes nothing. -/
def Sample.ctlIdle : controller Nat Nat Nat Nat Nat :=
  NewController Sample.splitOk Sample.listerHit Sample.isNotFound Sample.reconcileIdle
    Sample.patcher

/-- Controller whose objects are gone from the cache. -/
def Sample.ctlGone : controller Nat Nat Nat Nat Nat :=
  NewController Sample.splitOk Sample.listerGone Sample.isNotFound Sample.reconcile
    Sample.patcher

/-- Controller whose lister fails with an error that is not NotFound. -/
def Sample.ctlBroken : controller Nat Nat Nat Nat Nat :=
  NewController Sample.splitOk Sample.listerBroken Sample.isNotFound Sample.reconcile
    Sample.patcher

/-- Controller whose decoder rejects the token. -/
def Sample.ctlBad : controller Nat Nat Nat Nat Nat :=
  NewController Sample.splitBad Sample.listerHit Sample.isNotFound Sample.reconcile
    Sample.patcher

/-! ## Unfolding lemmas for `process` -/

theorem process_malformed (c : controller M Sp St E W) (key : String) (s : State M Sp St W)
    (e : Err E) (hk : c.SplitMetaClusterNamespaceKey key = .error e) :
    process c key s = (none, s) := by
  simp [process, hk]

theorem process_lister_error (c : controller M Sp St E W) (key : String) (s : State M Sp St W)
    (cl ns nm : String) (err : Err E)
    (hk : c.SplitMetaClusterNamespaceKey key = .ok (cl, ns, nm))
    (hl : c.listerGet s.world cl nm = .error err) :
    process c key s =
      (if c.IsNotFound err then none else some err, s.emit (Event.listerGet cl nm)) := by
  have hl1 : c.listerGet (s.emit (Event.listerGet cl nm)).world cl nm = .error err := hl
  simp only [process, hk, hl1]
  split <;> rfl

theorem process_found (c : controller M Sp St E W) (key : String) (s : State M Sp St W)
    (cl ns nm : String) (a : Nat)
    (hk : c.SplitMetaClusterNamespaceKey key = .ok (cl, ns, nm))
    (hl : c.listerGet s.world cl nm = .ok a) :
    process c key s =
      (NewAggregate
        ((if (c.reconcile s.world (s.heap a)).2.1.isSome
            then [(c.reconcile s.world (s.heap a)).2.1] else []) ++
         (if (c.commit (c.reconcile s.world (s.heap a)).2.2
                (resourceOf (if a = s.next then (c.reconcile s.world (s.heap a)).1
                  else s.heap a))
                (resourceOf (c.reconcile s.world (s.heap a)).1)).1.isSome
            then [(c.commit (c.reconcile s.world (s.heap a)).2.2
                (resourceOf (if a = s.next then (c.reconcile s.world (s.heap a)).1
                  else s.heap a))
                (resourceOf (c.reconcile s.world (s.heap a)).1)).1]
            else [])),
       { heap := fun b => if b = s.next then (c.reconcile s.world (s.heap a)).1 else s.heap b
         next := s.next + 1
         world := (c.commit (c.reconcile s.world (s.heap a)).2.2
                (resourceOf (if a = s.next then (c.reconcile s.world (s.heap a)).1
                  else s.heap a))
                (resourceOf (c.reconcile s.world (s.heap a)).1)).2.2
         trace := s.trace ++
           [Event.listerGet cl nm, Event.reconcile s.next (s.heap a),
            Event.commit
              (resourceOf (if a = s.next then (c.reconcile s.world (s.heap a)).1
                  else s.heap a))
              (resourceOf (c.reconcile s.world (s.heap a)).1)] ++
           (c.commit (c.reconcile s.world (s.heap a)).2.2
                (resourceOf (if a = s.next then (c.reconcile s.world (s.heap a)).1
                  else s.heap a))
                (resourceOf (c.reconcile s.world (s.heap a)).1)).2.1.map Event.patch }) := by
  have hl1 : c.listerGet (s.emit (Event.listerGet cl nm)).world cl nm = .ok a := hl
  simp only [process, hk, hl1]
  simp only [DeepCopy, callReconcile, callCommit, State.emit, State.write, if_true,
    List.nil_append, List.append_assoc, List.singleton_append, List.cons_append]
  refine Prod.ext ?_ ?_
  · simp only [List.nil_append]
    congr 1
    split_ifs <;> simp
  · simp
    funext b
    split <;> simp_all

/-! ## Traces -/

theorem calls_append (p : Event M Sp St → Bool) (t u : List (Event M Sp St)) :
    calls p (t ++ u) = calls p t + calls p u := by
  simp [calls, List.filter_append]

theorem calls_map_patch (p : Event M Sp St → Bool) (hp : ∀ q, p (Event.patch q) = false)
    (l : List (PatchCall M Sp St)) : calls p (l.map Event.patch) = 0 := by
  induction l with
  | nil => rfl
  | cons q l ih =>
    simp only [List.map_cons, calls, List.filter_cons, hp q] at ih ⊢
    simpa using ih

theorem queueOps_append (t u : List (Event M Sp St)) :
    queueOps (t ++ u) = queueOps t ++ queueOps u := by
  simp [queueOps, List.filter_append]

theorem queueOps_map_patch (l : List (PatchCall M Sp St)) :
    queueOps (l.map (Event.patch : PatchCall M Sp St → Event M Sp St)) = [] := by
  induction l with
  | nil => rfl
  | cons q l ih =>
    simp only [List.map_cons, queueOps, List.filter_cons, Event.isQueueOp] at ih ⊢
    simpa using ih

/-- The calls `process` makes are appended to the trace and none of them is a work-queue
operation. -/
theorem process_trace_extends (c : controller M Sp St E W) (key : String)
    (s : State M Sp St W) :
    ∃ evs, (process c key s).2.trace = s.trace ++ evs ∧ queueOps evs = [] ∧
      doneKeys evs = [] ∧ getResults evs = [] := by
  cases hk : c.SplitMetaClusterNamespaceKey key with
  | error e =>
    exact ⟨[], by simp [process_malformed c key s e hk], rfl, rfl, rfl⟩
  | ok r =>
    obtain ⟨cl, ns, nm⟩ := r
    cases hl : c.listerGet s.world cl nm with
    | error err =>
      refine ⟨[Event.listerGet cl nm], ?_, rfl, rfl, rfl⟩
      rw [process_lister_error c key s cl ns nm err hk hl]
      rfl
    | ok a =>
      rw [process_found c key s cl ns nm a hk hl]
      refine ⟨_, by simp only [List.append_assoc]; rfl, ?_, ?_, ?_⟩
      · rw [queueOps_append, queueOps_map_patch]
        rfl
      · simp [doneKeys, List.filterMap_append, List.filterMap_map]
      · simp [getResults, List.filterMap_append, List.filterMap_map]

theorem NewAggregate_pair (x y : Option (Err E)) :
    NewAggregate ((if x.isSome then [x] else []) ++ (if y.isSome then [y] else [])) =
      NewAggregate [x, y] := by
  cases x <;> cases y <;> simp [NewAggregate]

/-- One cycle on a delivered item, as a single expression. -/
theorem processNextWorkItem_eq (c : controller M Sp St E W) (key : String)
    (s : State M Sp St W) :
    processNextWorkItem c (key, false) s =
      (true, ((process c key (s.emit (Event.queueGet key false))).2.emit
        (if (process c key (s.emit (Event.queueGet key false))).1.isSome
          then Event.queueAddRateLimited key else Event.queueForget key)).emit
        (Event.queueDone key)) := by
  simp only [processNextWorkItem]
  split_ifs <;> simp_all

/-- The worker loop after a delivered item goes on with the next Get. -/
theorem startWorker_cons_item (c : controller M Sp St E W) (key : String)
    (rest : List (String × Bool)) (s : State M Sp St W) :
    startWorker c ((key, false) :: rest) s =
      startWorker c rest (processNextWorkItem c (key, false) s).2 := by
  rw [startWorker, processNextWorkItem_eq]

/-! ## Claims -/

/-- C1: when the key decodes and the lister finds the object, `process` calls commit exactly
once, after reconcile and whatever reconcile returned; the error it returns is the aggregate
of the reconcile error and the commit error: nil exactly when both are nil, and an aggregate
that holds the reconcile error whenever reconcile failed (only that error when commit
succeeded), and the commit error whenever commit failed. -/
theorem process_commits_once_and_aggregates (c : controller M Sp St E W) (key : String)
    (s : State M Sp St W) (cl ns nm : String) (a : Nat)
    (hk : c.SplitMetaClusterNamespaceKey key = .ok (cl, ns, nm))
    (hl : c.listerGet s.world cl nm = .ok a) :
    ∃ oldR newR : Resource M Sp St,
      (process c key s).2.trace =
        s.trace ++
          [Event.listerGet cl nm, Event.reconcile s.next (s.heap a), Event.commit oldR newR] ++
          (c.commit (c.reconcile s.world (s.heap a)).2.2 oldR newR).2.1.map Event.patch ∧
      calls Event.isCommit (process c key s).2.trace = calls Event.isCommit s.trace + 1 ∧
      (process c key s).1 =
        NewAggregate [(c.reconcile s.world (s.heap a)).2.1,
          (c.commit (c.reconcile s.world (s.heap a)).2.2 oldR newR).1] ∧
      ((process c key s).1 = none ↔
        (c.reconcile s.world (s.heap a)).2.1 = none ∧
          (c.commit (c.reconcile s.world (s.heap a)).2.2 oldR newR).1 = none) ∧
      (∀ e, (c.reconcile s.world (s.heap a)).2.1 = some e →
        ∃ agg, (process c key s).1 = some agg ∧ e ∈ agg.Errors ∧
          ((c.commit (c.reconcile s.world (s.heap a)).2.2 oldR newR).1 = none →
            agg = Err.aggregate [e])) ∧
      (∀ e, (c.commit (c.reconcile s.world (s.heap a)).2.2 oldR newR).1 = some e →
        ∃ agg, (process c key s).1 = some agg ∧ e ∈ agg.Errors) := by
  rw [process_found c key s cl ns nm a hk hl, NewAggregate_pair]
  refine ⟨_, _, rfl, ?_, rfl, ?_, ?_, ?_⟩
  · simp only [calls_append, calls_map_patch Event.isCommit (fun _ => rfl)]
    rfl
  · cases (c.reconcile s.world (s.heap a)).2.1 <;>
      cases (c.commit (c.reconcile s.world (s.heap a)).2.2
        (resourceOf (if a = s.next then (c.reconcile s.world (s.heap a)).1 else s.heap a))
        (resourceOf (c.reconcile s.world (s.heap a)).1)).1 <;>
      simp [NewAggregate]
  · intro e he
    rw [he]
    cases (c.commit (c.reconcile s.world (s.heap a)).2.2
        (resourceOf (if a = s.next then (c.reconcile s.world (s.heap a)).1 else s.heap a))
        (resourceOf (c.reconcile s.world (s.heap a)).1)).1 <;>
      simp [NewAggregate, Err.Errors]
  · intro e he
    rw [he]
    cases (c.reconcile s.world (s.heap a)).2.1 <;> simp [NewAggregate, Err.Errors]

/-- Witness of C1: a found object whose reconcile fails while commit succeeds. -/
theorem process_commits_once_and_aggregates_witness :
    ∃ oldR newR : Resource Nat Nat Nat,
      (process Sample.ctl "a" Sample.state).2.trace =
        Sample.state.trace ++
          [Event.listerGet "root" "a",
           Event.reconcile Sample.state.next (Sample.state.heap 0), Event.commit oldR newR] ++
          (Sample.ctl.commit (Sample.ctl.reconcile Sample.state.world
            (Sample.state.heap 0)).2.2 oldR newR).2.1.map Event.patch ∧
      calls Event.isCommit (process Sample.ctl "a" Sample.state).2.trace =
        calls Event.isCommit Sample.state.trace + 1 ∧
      (process Sample.ctl "a" Sample.state).1 =
        NewAggregate [(Sample.ctl.reconcile Sample.state.world (Sample.state.heap 0)).2.1,
          (Sample.ctl.commit (Sample.ctl.reconcile Sample.state.world
            (Sample.state.heap 0)).2.2 oldR newR).1] ∧
      ((process Sample.ctl "a" Sample.state).1 = none ↔
        (Sample.ctl.reconcile Sample.state.world (Sample.state.heap 0)).2.1 = none ∧
          (Sample.ctl.commit (Sample.ctl.reconcile Sample.state.world
            (Sample.state.heap 0)).2.2 oldR newR).1 = none) ∧
      (∀ e, (Sample.ctl.reconcile Sample.state.world (Sample.state.heap 0)).2.1 = some e →
        ∃ agg, (process Sample.ctl "a" Sample.state).1 = some agg ∧ e ∈ agg.Errors ∧
          ((Sample.ctl.commit (Sample.ctl.reconcile Sample.state.world
            (Sample.state.heap 0)).2.2 oldR newR).1 = none →
            agg = Err.aggregate [e])) ∧
      (∀ e, (Sample.ctl.commit (Sample.ctl.reconcile Sample.state.world
            (Sample.state.heap 0)).2.2 oldR newR).1 = some e →
        ∃ agg, (process Sample.ctl "a" Sample.state).1 = some agg ∧ e ∈ agg.Errors) :=
  process_commits_once_and_aggregates Sample.ctl "a" Sample.state "root" "" "a" 0 rfl rfl

/-- C2 (scenario B): when the key decodes and the lister lookup fails with NotFound,
`process` returns nil having made the lister lookup only (no reconcile, no commit), and
`processNextWorkItem` then calls Forget and Done on the key and never AddRateLimited. -/
theorem process_notFound_forgets (c : controller M Sp St E W) (key : String)
    (s : State M Sp St W) (cl ns nm : String) (err : Err E)
    (hk : c.SplitMetaClusterNamespaceKey key = .ok (cl, ns, nm))
    (hl : c.listerGet s.world cl nm = .error err)
    (hnf : c.IsNotFound err = true) :
    process c key s = (none, s.emit (Event.listerGet cl nm)) ∧
    calls Event.isReconcile (process c key s).2.trace = calls Event.isReconcile s.trace ∧
    calls Event.isCommit (process c key s).2.trace = calls Event.isCommit s.trace ∧
    (processNextWorkItem c (key, false) s).1 = true ∧
    (processNextWorkItem c (key, false) s).2.trace =
      s.trace ++ [Event.queueGet key false, Event.listerGet cl nm, Event.queueForget key,
        Event.queueDone key] ∧
    calls Event.isAddRateLimited (processNextWorkItem c (key, false) s).2.trace =
      calls Event.isAddRateLimited s.trace := by
  have hp : ∀ s0 : State M Sp St W, s0.world = s.world →
      process c key s0 = (none, s0.emit (Event.listerGet cl nm)) := by
    intro s0 h0
    rw [process_lister_error c key s0 cl ns nm err hk (h0 ▸ hl), hnf]
    rfl
  have ht : (processNextWorkItem c (key, false) s).2.trace =
      s.trace ++ [Event.queueGet key false, Event.listerGet cl nm, Event.queueForget key,
        Event.queueDone key] := by
    rw [processNextWorkItem_eq, hp (s.emit (Event.queueGet key false)) rfl]
    simp [State.emit]
  refine ⟨hp s rfl, ?_, ?_, ?_, ht, ?_⟩
  · rw [hp s rfl]
    simp only [State.emit, calls_append]
    rfl
  · rw [hp s rfl]
    simp only [State.emit, calls_append]
    rfl
  · rw [processNextWorkItem_eq]
  · rw [ht, calls_append]
    rfl

/-- Witness of C2: the object is gone from the cache. -/
theorem process_notFound_forgets_witness :
    (processNextWorkItem Sample.ctlGone ("a", false) Sample.state).2.trace =
      Sample.state.trace ++ [Event.queueGet "a" false, Event.listerGet "root" "a",
        Event.queueForget "a", Event.queueDone "a"] :=
  (process_notFound_forgets Sample.ctlGone "a" Sample.state "root" "" "a" (.base 404)
    rfl rfl rfl).2.2.2.2.1

/-- C3: for a key that `queue.Get` delivers as an item, `processNextWorkItem` returns true
and its work-queue operations after the Get are exactly two, on that key: Forget then Done
when `process` returned nil, AddRateLimited then Done when it returned an error. Done is the
last event of the cycle. -/
theorem processNextWorkItem_item (c : controller M Sp St E W) (key : String)
    (s : State M Sp St W) :
    (processNextWorkItem c (key, false) s).1 = true ∧
    (processNextWorkItem c (key, false) s).2.trace =
      (process c key (s.emit (Event.queueGet key false))).2.trace ++
        [if (process c key (s.emit (Event.queueGet key false))).1.isSome
          then Event.queueAddRateLimited key else Event.queueForget key,
         Event.queueDone key] ∧
    queueOps (processNextWorkItem c (key, false) s).2.trace =
      queueOps s.trace ++
        [Event.queueGet key false,
         if (process c key (s.emit (Event.queueGet key false))).1.isSome
          then Event.queueAddRateLimited key else Event.queueForget key,
         Event.queueDone key] ∧
    doneKeys (processNextWorkItem c (key, false) s).2.trace = doneKeys s.trace ++ [key] := by
  obtain ⟨evs, hevs, hq, hd, _⟩ := process_trace_extends c key (s.emit (Event.queueGet key false))
  have htr : (processNextWorkItem c (key, false) s).2.trace =
      (process c key (s.emit (Event.queueGet key false))).2.trace ++
        [if (process c key (s.emit (Event.queueGet key false))).1.isSome
          then Event.queueAddRateLimited key else Event.queueForget key,
         Event.queueDone key] := by
    rw [processNextWorkItem_eq]
    simp [State.emit]
  refine ⟨?_, htr, ?_, ?_⟩
  · rw [processNextWorkItem_eq]
  · rw [htr, hevs]
    simp only [State.emit, queueOps_append, hq, List.append_nil, List.append_assoc]
    split_ifs <;> rfl
  · rw [htr, hevs]
    simp only [State.emit, doneKeys, List.filterMap_append] at hd ⊢
    rw [hd]
    split_ifs <;> simp

/-- C4: when the decoder rejects the token, `process` returns nil and makes no call at all
(no lister lookup, no reconcile, no commit), and `processNextWorkItem` calls Forget and then
Done on the token and never AddRateLimited. -/
theorem process_malformed_dropped (c : controller M Sp St E W) (key : String)
    (s : State M Sp St W) (e : Err E)
    (hk : c.SplitMetaClusterNamespaceKey key = .error e) :
    process c key s = (none, s) ∧
    processNextWorkItem c (key, false) s =
      (true, { s with trace := s.trace ++
        [Event.queueGet key false, Event.queueForget key, Event.queueDone key] }) ∧
    calls Event.isAddRateLimited (processNextWorkItem c (key, false) s).2.trace =
      calls Event.isAddRateLimited s.trace := by
  have hn : processNextWorkItem c (key, false) s =
      (true, { s with trace := s.trace ++
        [Event.queueGet key false, Event.queueForget key, Event.queueDone key] }) := by
    rw [processNextWorkItem_eq, process_malformed c key _ e hk]
    simp [State.emit]
  refine ⟨process_malformed c key s e hk, hn, ?_⟩
  rw [hn]
  simp only [calls_append]
  rfl

/-- Witness of C4: a token the decoder rejects. -/
theorem process_malformed_dropped_witness :
    processNextWorkItem Sample.ctlBad ("a", false) Sample.state =
      (true, { Sample.state with trace := Sample.state.trace ++
        [Event.queueGet "a" false, Event.queueForget "a", Event.queueDone "a"] }) :=
  (process_malformed_dropped Sample.ctlBad "a" Sample.state (.base 400) rfl).2.1

/-- C5: in a cycle on a found object (the lister pointer `a` is allocated), reconcile is
called on a pointer different from `a` whose pointee equals the cached object; whatever
reconcile does to its argument, the old Resource handed to commit holds the metadata, spec
and status the cached object had before reconcile ran, the new Resource holds those of the
copy as reconcile left it, and after the cycle every object allocated before it, the cached
one included, is unchanged. -/
theorem process_old_never_mutated (c : controller M Sp St E W) (key : String)
    (s : State M Sp St W) (cl ns nm : String) (a : Nat)
    (hk : c.SplitMetaClusterNamespaceKey key = .ok (cl, ns, nm))
    (hl : c.listerGet s.world cl nm = .ok a) (ha : a < s.next) :
    s.next ≠ a ∧
    (process c key s).2.trace =
      s.trace ++
        [Event.listerGet cl nm,
         Event.reconcile s.next (s.heap a),
         Event.commit
           { ObjectMeta := (s.heap a).ObjectMeta, Spec := (s.heap a).Spec,
             Status := (s.heap a).Status }
           { ObjectMeta := (c.reconcile s.world (s.heap a)).1.ObjectMeta,
             Spec := (c.reconcile s.world (s.heap a)).1.Spec,
             Status := (c.reconcile s.world (s.heap a)).1.Status }] ++
        (c.commit (c.reconcile s.world (s.heap a)).2.2
          (resourceOf (s.heap a))
          (resourceOf (c.reconcile s.world (s.heap a)).1)).2.1.map Event.patch ∧
    (∀ b, b < s.next → (process c key s).2.heap b = s.heap b) ∧
    (process c key s).2.heap s.next = (c.reconcile s.world (s.heap a)).1 := by
  have hne : ¬ a = s.next := Nat.ne_of_lt ha
  rw [process_found c key s cl ns nm a hk hl]
  simp only [if_neg hne]
  refine ⟨fun h => hne h.symm, rfl, ?_, ?_⟩
  · intro b hb
    simp [Nat.ne_of_lt hb]
  · simp

/-- Witness of C5: the cached object at address 0 keeps its status 0 while the copy at
address 1 gets status 1. -/
theorem process_old_never_mutated_witness :
    (process Sample.ctl "a" Sample.state).2.heap 0 = { ObjectMeta := 7, Spec := 1, Status := 0 } ∧
    (process Sample.ctl "a" Sample.state).2.heap 1 =
      { ObjectMeta := 7, Spec := 1, Status := 1 } :=
  ⟨(process_old_never_mutated Sample.ctl "a" Sample.state "root" "" "a" 0 rfl rfl
      (by decide)).2.2.1 0 (by decide),
   (process_old_never_mutated Sample.ctl "a" Sample.state "root" "" "a" 0 rfl rfl
      (by decide)).2.2.2⟩

/-- C7: `getAPIExport` returns the hit of the local APIExport index when there is one; when
the local index misses and the global index hits it returns the global hit; when both miss
it returns NotFound. -/
theorem getAPIExport_fallback {T : Type} (apiExportIndexer globalAPIExportIndexer : Indexer T)
    (path name : String) :
    (∀ x, apiExportIndexer path name = some x →
      getAPIExport apiExportIndexer globalAPIExportIndexer path name = Lookup.found x) ∧
    (∀ y, apiExportIndexer path name = none → globalAPIExportIndexer path name = some y →
      getAPIExport apiExportIndexer globalAPIExportIndexer path name = Lookup.found y) ∧
    (apiExportIndexer path name = none → globalAPIExportIndexer path name = none →
      getAPIExport apiExportIndexer globalAPIExportIndexer path name = Lookup.NotFound) := by
  refine ⟨?_, ?_, ?_⟩
  · intro x hx
    simp [getAPIExport, ByPathAndNameWithFallback, hx]
  · intro y hx hy
    simp [getAPIExport, ByPathAndNameWithFallback, hx, hy]
  · intro hx hy
    simp [getAPIExport, ByPathAndNameWithFallback, hx, hy]

/-- Witness of C7: an export that only the global index holds is resolved to the global
hit. -/
theorem getAPIExport_fallback_witness :
    getAPIExport (fun _ _ => (none : Option Nat)) (fun _ _ => some 5) "root:org" "export" =
      Lookup.found 5 :=
  (getAPIExport_fallback (fun _ _ => (none : Option Nat)) (fun _ _ => some 5)
    "root:org" "export").2.1 5 rfl rfl

/-- C8: the committer, given an old and a new Resource that agree in metadata, spec and
status, sends no patch request, returns no error and leaves the world as it is; and a cycle
of `process` in which reconcile leaves the copy as it found it hands commit two equal
Resources, so that the cycle sends no patch request. -/
theorem noop_commit_silent [DecidableEq M] [DecidableEq Sp] [DecidableEq St]
    (patcher : W → PatchCall M Sp St → Option (Err E) × W) :
    (∀ (w : W) (old new : Resource M Sp St),
      old.ObjectMeta = new.ObjectMeta → old.Spec = new.Spec → old.Status = new.Status →
      NewCommitter patcher w old new = (none, [], w)) ∧
    (∀ (splitKey : String → Except (Err E) (String × String × String))
       (listerGet : W → String → String → Except (Err E) Nat)
       (isNotFound : Err E → Bool)
       (reconcile : W → APIBinding M Sp St → APIBinding M Sp St × Option (Err E) × W)
       (key : String) (s : State M Sp St W) (cl ns nm : String) (a : Nat),
      splitKey key = .ok (cl, ns, nm) → listerGet s.world cl nm = .ok a → a < s.next →
      (reconcile s.world (s.heap a)).1 = s.heap a →
      (process (NewController splitKey listerGet isNotFound reconcile patcher) key s).2.trace =
        s.trace ++
          [Event.listerGet cl nm, Event.reconcile s.next (s.heap a),
           Event.commit (resourceOf (s.heap a)) (resourceOf (s.heap a))] ∧
      calls Event.isPatch
          (process (NewController splitKey listerGet isNotFound reconcile patcher) key s).2.trace =
        calls Event.isPatch s.trace ∧
      (process (NewController splitKey listerGet isNotFound reconcile patcher) key s).2.world =
        (reconcile s.world (s.heap a)).2.2 ∧
      (process (NewController splitKey listerGet isNotFound reconcile patcher) key s).1 =
        NewAggregate [(reconcile s.world (s.heap a)).2.1]) := by
  have hnoop : ∀ (w : W) (old new : Resource M Sp St),
      old.ObjectMeta = new.ObjectMeta → old.Spec = new.Spec → old.Status = new.Status →
      NewCommitter patcher w old new = (none, [], w) := by
    intro w old new h1 h2 h3
    simp [NewCommitter, h1, h2, h3]
  refine ⟨hnoop, ?_⟩
  intro splitKey listerGet isNotFound reconcile key s cl ns nm a hk hl ha hre
  have hne : ¬ a = s.next := Nat.ne_of_lt ha
  have hc := hnoop (reconcile s.world (s.heap a)).2.2 (resourceOf (s.heap a))
    (resourceOf (s.heap a)) rfl rfl rfl
  rw [process_found (NewController splitKey listerGet isNotFound reconcile patcher) key s
    cl ns nm a hk hl, NewAggregate_pair]
  simp only [NewController, if_neg hne, hre, hc, List.map_nil, List.append_nil]
  refine ⟨trivial, ?_, trivial, ?_⟩
  · simp only [calls_append]
    rfl
  · cases (reconcile s.world (s.heap a)).2.1 <;> simp [NewAggregate]

/-- Witness of C8: a cycle whose reconcile changes nothing sends no patch request. -/
theorem noop_commit_silent_witness :
    NewCommitter Sample.patcher 0 (⟨7, 1, 0⟩ : Resource Nat Nat Nat) ⟨7, 1, 0⟩ =
      ((none : Option (Err Nat)), [], 0) ∧
    calls Event.isPatch (process Sample.ctlIdle "a" Sample.state).2.trace =
      calls Event.isPatch Sample.state.trace :=
  ⟨(noop_commit_silent Sample.patcher).1 0 ⟨7, 1, 0⟩ ⟨7, 1, 0⟩ rfl rfl rfl,
   ((noop_commit_silent Sample.patcher).2 Sample.splitOk Sample.listerHit Sample.isNotFound
      Sample.reconcileIdle "a" Sample.state "root" "" "a" 0 rfl rfl (by decide) rfl).2.1⟩

/-- C9: with a lister that hands out allocated pointers, `process` returns nil exactly when
the key is malformed, or the lister lookup fails with NotFound, or the object is found and
reconcile and commit both return nil. When the lister fails with an error that is not
NotFound, `process` returns that very error after the lookup alone. In every case reconcile
and commit are called the same number of times, at most once. -/
theorem process_outcomes (c : controller M Sp St E W) (key : String) (s : State M Sp St W)
    (hwf : ListerSound c s) :
    ((process c key s).1 = none ↔
      (∃ e, c.SplitMetaClusterNamespaceKey key = .error e) ∨
      (∃ cl ns nm err, c.SplitMetaClusterNamespaceKey key = .ok (cl, ns, nm) ∧
        c.listerGet s.world cl nm = .error err ∧ c.IsNotFound err = true) ∨
      (∃ cl ns nm a, c.SplitMetaClusterNamespaceKey key = .ok (cl, ns, nm) ∧
        c.listerGet s.world cl nm = .ok a ∧
        (c.reconcile s.world (s.heap a)).2.1 = none ∧
        (c.commit (c.reconcile s.world (s.heap a)).2.2 (resourceOf (s.heap a))
          (resourceOf (c.reconcile s.world (s.heap a)).1)).1 = none)) ∧
    (∀ cl ns nm err, c.SplitMetaClusterNamespaceKey key = .ok (cl, ns, nm) →
      c.listerGet s.world cl nm = .error err → c.IsNotFound err = false →
      process c key s = (some err, s.emit (Event.listerGet cl nm))) ∧
    (∃ n, n ≤ 1 ∧
      calls Event.isReconcile (process c key s).2.trace = calls Event.isReconcile s.trace + n ∧
      calls Event.isCommit (process c key s).2.trace = calls Event.isCommit s.trace + n ∧
      (n = 1 ↔ ∃ cl ns nm a, c.SplitMetaClusterNamespaceKey key = .ok (cl, ns, nm) ∧
        c.listerGet s.world cl nm = .ok a)) := by
  cases hk : c.SplitMetaClusterNamespaceKey key with
  | error e =>
    rw [process_malformed c key s e hk]
    refine ⟨by simp, by simp, 0, by simp, rfl, rfl, by simp⟩
  | ok r =>
    obtain ⟨cl, ns, nm⟩ := r
    cases hl : c.listerGet s.world cl nm with
    | error err =>
      rw [process_lister_error c key s cl ns nm err hk hl]
      refine ⟨?_, ?_, 0, by simp, ?_, ?_, ?_⟩
      · constructor
        · intro h
          refine Or.inr (Or.inl ⟨cl, ns, nm, err, rfl, hl, ?_⟩)
          by_contra hnf
          simp [hnf] at h
        · rintro (⟨e, he⟩ | ⟨cl1, ns1, nm1, err1, h1, h2, h3⟩ | ⟨cl1, ns1, nm1, a, h1, h2, _⟩)
          · cases he
          · cases h1
            rw [hl] at h2
            cases h2
            simp [h3]
          · cases h1
            rw [hl] at h2
            cases h2
      · intro cl1 ns1 nm1 err1 h1 h2 h3
        cases h1
        rw [hl] at h2
        cases h2
        simp [h3]
      · simp only [State.emit, calls_append]
        rfl
      · simp only [State.emit, calls_append]
        rfl
      · constructor
        · intro h
          cases h
        · rintro ⟨cl1, ns1, nm1, a, h1, h2⟩
          cases h1
          rw [hl] at h2
          cases h2
    | ok a =>
      have hne : ¬ a = s.next := Nat.ne_of_lt (hwf cl nm a hl)
      rw [process_found c key s cl ns nm a hk hl, NewAggregate_pair]
      simp only [if_neg hne]
      refine ⟨?_, ?_, 1, le_refl 1, ?_, ?_, ?_⟩
      · constructor
        · intro h
          refine Or.inr (Or.inr ⟨cl, ns, nm, a, rfl, hl, ?_⟩)
          revert h
          cases (c.reconcile s.world (s.heap a)).2.1 <;>
            cases (c.commit (c.reconcile s.world (s.heap a)).2.2 (resourceOf (s.heap a))
              (resourceOf (c.reconcile s.world (s.heap a)).1)).1 <;>
            simp [NewAggregate]
        · rintro (⟨e, he⟩ | ⟨cl1, ns1, nm1, err1, h1, h2, _⟩ | ⟨cl1, ns1, nm1, a1, h1, h2, h3, h4⟩)
          · cases he
          · cases h1
            rw [hl] at h2
            cases h2
          · cases h1
            rw [hl] at h2
            cases h2
            rw [h3, h4]
            simp [NewAggregate]
      · intro cl1 ns1 nm1 err1 h1 h2 _
        cases h1
        rw [hl] at h2
        cases h2
      · simp only [calls_append, calls_map_patch Event.isReconcile (fun _ => rfl)]
        rfl
      · simp only [calls_append, calls_map_patch Event.isCommit (fun _ => rfl)]
        rfl
      · simp only [true_iff]
        exact ⟨cl, ns, nm, a, rfl, hl⟩

/-- Witness of C9: a lister error that is not NotFound is returned as it is, and a found
object gets one reconcile and one commit. -/
theorem process_outcomes_witness :
    process Sample.ctlBroken "a" Sample.state =
      (some (.base 500), Sample.state.emit (Event.listerGet "root" "a")) ∧
    ∃ n, n ≤ 1 ∧
      calls Event.isReconcile (process Sample.ctl "a" Sample.state).2.trace =
        calls Event.isReconcile Sample.state.trace + n ∧
      calls Event.isCommit (process Sample.ctl "a" Sample.state).2.trace =
        calls Event.isCommit Sample.state.trace + n ∧
      (n = 1 ↔ ∃ cl ns nm a, Sample.ctl.SplitMetaClusterNamespaceKey "a" = .ok (cl, ns, nm) ∧
        Sample.ctl.listerGet Sample.state.world cl nm = .ok a) :=
  ⟨(process_outcomes Sample.ctlBroken "a" Sample.state
      (fun _ _ _ h => by cases h)).2.1 "root" "" "a" (.base 500) rfl rfl rfl,
   (process_outcomes Sample.ctl "a" Sample.state
      (fun _ _ _ h => by cases h; decide)).2.2⟩

/-- C10: when `queue.Get` reports shutdown, `processNextWorkItem` returns false after the Get
alone (no `process`, Done, Forget or AddRateLimited), and it returns false in that case only.
So `startWorker`, given Get results that deliver the items `pre` and then report shutdown,
returns: it has run one cycle for each item of `pre`, in order, made one more Get, and called
Done once for each item of `pre`; what the queue would deliver after the shutdown report is
not looked at. With Get results that never report shutdown it does not return. -/
theorem startWorker_stops_at_shutdown (c : controller M Sp St E W) :
    (∀ (k : String) (s : State M Sp St W),
      processNextWorkItem c (k, true) s = (false, s.emit (Event.queueGet k true))) ∧
    (∀ (g : String × Bool) (s : State M Sp St W),
      (processNextWorkItem c g s).1 = false ↔ g.2 = true) ∧
    (∀ (pre : List String) (k : String) (rest : List (String × Bool)) (s : State M Sp St W),
      startWorker c (pre.map (fun key => (key, false)) ++ (k, true) :: rest) s =
        some ((pre.foldl (fun st key => (processNextWorkItem c (key, false) st).2) s).emit
          (Event.queueGet k true)) ∧
      (∀ s1, startWorker c (pre.map (fun key => (key, false)) ++ (k, true) :: rest) s =
          some s1 →
        getResults s1.trace =
          getResults s.trace ++ pre.map (fun key => (key, false)) ++ [(k, true)] ∧
        doneKeys s1.trace = doneKeys s.trace ++ pre)) ∧
    (∀ (l : List (String × Bool)) (s : State M Sp St W),
      (∀ g ∈ l, g.2 = false) → startWorker c l s = none) := by
  have hquit : ∀ (k : String) (s : State M Sp St W),
      processNextWorkItem c (k, true) s = (false, s.emit (Event.queueGet k true)) := by
    intro k s
    simp [processNextWorkItem]
  have hrun : ∀ (pre : List String) (k : String) (rest : List (String × Bool))
      (s : State M Sp St W),
      startWorker c (pre.map (fun key => (key, false)) ++ (k, true) :: rest) s =
        some ((pre.foldl (fun st key => (processNextWorkItem c (key, false) st).2) s).emit
          (Event.queueGet k true)) := by
    intro pre
    induction pre with
    | nil =>
      intro k rest s
      simp [startWorker, hquit]
    | cons key pre ih =>
      intro k rest s
      simp only [List.map_cons, List.cons_append, List.foldl_cons]
      rw [startWorker_cons_item, ih k rest]
  have hfold : ∀ (pre : List String) (s : State M Sp St W),
      getResults (pre.foldl (fun st key => (processNextWorkItem c (key, false) st).2) s).trace =
          getResults s.trace ++ pre.map (fun key => (key, false)) ∧
      doneKeys (pre.foldl (fun st key => (processNextWorkItem c (key, false) st).2) s).trace =
          doneKeys s.trace ++ pre := by
    intro pre
    induction pre with
    | nil =>
      intro s
      simp
    | cons key pre ih =>
      intro s
      obtain ⟨evs, hevs, _, hd, hg⟩ :=
        process_trace_extends c key (s.emit (Event.queueGet key false))
      have ht : (processNextWorkItem c (key, false) s).2.trace =
          s.trace ++ [Event.queueGet key false] ++ evs ++
            [if (process c key (s.emit (Event.queueGet key false))).1.isSome
              then Event.queueAddRateLimited key else Event.queueForget key,
             Event.queueDone key] := by
        rw [processNextWorkItem_eq]
        simp only [State.emit] at hevs ⊢
        rw [hevs]
        simp
      simp only [List.foldl_cons, List.map_cons]
      rw [(ih _).1, (ih _).2, ht]
      simp only [getResults, doneKeys, List.filterMap_append] at hd hg ⊢
      rw [hd, hg]
      constructor
      · split_ifs <;> simp
      · split_ifs <;> simp
  refine ⟨hquit, ?_, ?_, ?_⟩
  · rintro ⟨k, q⟩ s
    cases q
    · rw [processNextWorkItem_eq]
      simp
    · rw [hquit]
      simp
  · intro pre k rest s
    refine ⟨hrun pre k rest s, ?_⟩
    intro s1 h1
    rw [hrun pre k rest s] at h1
    cases h1
    simp only [State.emit]
    constructor
    · simp only [getResults, List.filterMap_append]
      have := (hfold pre s).1
      simp only [getResults] at this
      rw [this]
      simp
    · simp only [doneKeys, List.filterMap_append]
      have := (hfold pre s).2
      simp only [doneKeys] at this
      rw [this]
      simp
  · intro l
    induction l with
    | nil =>
      intro s _
      rfl
    | cons g l ih =>
      intro s hg
      obtain ⟨k, q⟩ := g
      have hq : q = false := hg (k, q) (List.mem_cons_self _ _)
      subst hq
      rw [startWorker_cons_item]
      exact ih _ (fun g1 h1 => hg g1 (List.mem_cons_of_mem _ h1))

/-- Witness of C10: two items, a shutdown report, and an item that is never delivered. -/
theorem startWorker_stops_at_shutdown_witness :
    ∀ s1, startWorker Sample.ctl
        (["a", "b"].map (fun key => (key, false)) ++ ("", true) :: [("c", false)])
        Sample.state = some s1 →
      getResults s1.trace =
        getResults Sample.state.trace ++ ["a", "b"].map (fun key => (key, false)) ++
          [("", true)] ∧
      doneKeys s1.trace = doneKeys Sample.state.trace ++ ["a", "b"] :=
  ((startWorker_stops_at_shutdown Sample.ctl).2.2.1 ["a", "b"] "" [("c", false)]
    Sample.state).2

end permissionclaimlabel
